import Mathlib

/-!
Verification of the chatpiano-midi-tool-server core (`midi_tool_server/`).

The Python source is shallowly embedded:
* a mido `Message` becomes `Msg` (kind, note, velocity, tempo, delta-time);
  meta messages other than `set_tempo` are the kind `other`;
* Python `float` arithmetic on times and ratios is modelled by exact `ℚ`
  arithmetic (the properties at stake are piecewise-linear identities and
  integer rounding, far above float epsilon);
* Python `int(x)` is `pytrunc` (truncation toward zero), Python `round`
  (used by `mido.second2tick`) is `pyRound` (round half to even);
* file-system effects (`Path.exists`, `uuid4`) are modelled by an oracle
  `collides : ℕ → Bool` indexed by attempt number;
* `pretty_midi.estimate_tempo` followed by `_post_process_bpm` is an opaque
  float estimator, so the swing transform is parametrised by the resulting
  `bpm` value.
-/

namespace MidiTool

/-- Kind of mido message distinguished by the source: `note_on`, `note_off`,
`set_tempo` meta messages, and everything else. -/
inductive MsgKind
  | note_on
  | note_off
  | set_tempo
  | other
deriving DecidableEq

/-- Model of a mido `Message`: its kind together with the fields the source
reads or writes (`note`, `velocity`, `tempo`) and the delta-time in ticks. -/
structure Msg where
  kind : MsgKind
  note : ℕ
  velocity : ℕ
  tempo : ℕ
  time : ℤ
deriving DecidableEq

/-- Model of a mido `MidiTrack`: its name (`track.name`, the empty string when
unnamed) and its ordered messages. -/
structure Track where
  name : String
  msgs : List Msg
deriving DecidableEq

/-- Model of a mido `MidiFile`: the ticks-per-quarter-note resolution and the
ordered tracks. -/
structure MidiFileM where
  ticks_per_beat : ℕ
  tracks : List Track
deriving DecidableEq

/-- Python `int(q)`: truncation toward zero. -/
def pytrunc (q : ℚ) : ℤ :=
  if 0 ≤ q then ⌊q⌋ else -⌊-q⌋

/-- Python `round(q)` on a float value, exact at rationals: round half to
even. -/
def pyRound (q : ℚ) : ℤ :=
  if q - ⌊q⌋ < 1/2 then ⌊q⌋
  else if 1/2 < q - ⌊q⌋ then ⌊q⌋ + 1
  else if ⌊q⌋ % 2 = 0 then ⌊q⌋ else ⌊q⌋ + 1

/-- Model of `mido.tick2second(tick, ticks_per_beat, tempo)`:
`tick * (tempo / 1e6 / ticks_per_beat)`, exact over `ℚ`. -/
def tick2second (tick : ℤ) (ticks_per_beat : ℕ) (tempo : ℚ) : ℚ :=
  tick * (tempo / 1000000 / ticks_per_beat)

/-- Model of `mido.second2tick(second, ticks_per_beat, tempo)`:
`int(round(second / scale))` with `scale = tempo / 1e6 / ticks_per_beat`. -/
def second2tick (second : ℚ) (ticks_per_beat : ℕ) (tempo : ℚ) : ℤ :=
  pyRound (second / (tempo / 1000000 / ticks_per_beat))

/-- Loop body of `extract_pitch_sequence` (midi_ops.py lines 192-210): walks
the track accumulating the onset sequence `seq`, the active-note map
`active` (an insertion-ordered association list, as a Python dict), and the
absolute time `abs0` in seconds.  Times are converted with the hard-coded
`mido.tick2second(msg.time, 480, 500000)` of line 196. -/
def extract_aux (tol : ℚ) :
    List Msg → List ℕ → List (ℕ × ℚ) → ℚ → Option (List ℕ)
  | [], seq, _, _ => some seq
  | m :: rest, seq, active, abs0 =>
    let abs1 := abs0 + tick2second m.time 480 500000
    if m.kind = .note_on ∧ 0 < m.velocity then
      if active.any (fun p => p.1 == m.note) then
        extract_aux tol rest seq active abs1
      else
        extract_aux tol rest (seq ++ [m.note]) (active ++ [(m.note, abs1)]) abs1
    else if m.kind = .note_off ∨ (m.kind = .note_on ∧ m.velocity = 0) then
      if active.any (fun p => p.1 == m.note) then
        let active' := active.eraseP (fun p => p.1 == m.note)
        if active'.any (fun p => tol ≤ abs1 - p.2) then none
        else extract_aux tol rest seq active' abs1
      else
        extract_aux tol rest seq active abs1
    else
      extract_aux tol rest seq active abs1

/-- Model of `extract_pitch_sequence(track, monophonicity_tolerance_sec)`
(midi_ops.py lines 188-210).  The Python default tolerance `0.1` is passed
explicitly at call sites. -/
def extract_pitch_sequence (track : List Msg) (tol : ℚ) : Option (List ℕ) :=
  extract_aux tol track [] [] 0

/-- Model of the `while True` loop of `_generate_output_path` (midi_ops.py
lines 21-28).  Candidate names are indexed by attempt number; `collides k`
models `candidate.exists()` for the `k`-th generated candidate; `fuel` counts
how many loop iterations are observed.  `none` means the loop is still
running after `fuel` iterations; the source has no other exit. -/
def gen_tries (collides : ℕ → Bool) : ℕ → ℕ → Option ℕ
  | 0, _ => none
  | fuel + 1, k => if collides k then gen_tries collides fuel (k + 1) else some k

/-- Model of `_generate_output_path`, returning the index of the first
candidate observed not to exist, within `fuel` attempts. -/
def generate_output_path (collides : ℕ → Bool) (fuel : ℕ) : Option ℕ :=
  gen_tries collides fuel 0

/-- Model of the tempo-event scan of `change_tempo` (midi_ops.py lines
36-41): whether any track contains a `set_tempo` message. -/
def has_tempo_meta (midi : MidiFileM) : Bool :=
  midi.tracks.any (fun t => t.msgs.any (fun m => m.kind == .set_tempo))

/-- Per-message update of `change_tempo` when a tempo event exists
(midi_ops.py line 41): `msg.tempo = max(1, int(msg.tempo / ratio))`. -/
def change_tempo_msg (r : ℚ) (m : Msg) : Msg :=
  if m.kind = .set_tempo then
    { m with tempo := (max 1 (pytrunc ((m.tempo : ℚ) / r))).toNat }
  else m

/-- Per-track delta-time rescaling of `change_tempo` when no tempo event
exists (midi_ops.py lines 47-55): accumulate `tick_precise += time / ratio`
and re-derive integer deltas from the rounded running position. -/
def change_tempo_deltas (r : ℚ) : List Msg → ℚ → ℤ → List Msg
  | [], _, _ => []
  | m :: rest, precise, rounded =>
    let precise' := precise + (m.time : ℚ) / r
    let new_tick := pyRound precise'
    { m with time := new_tick - rounded } ::
      change_tempo_deltas r rest precise' new_tick

/-- Model of `change_tempo` after its argument checks (midi_ops.py lines
35-56).  The no-tempo branch builds `mido.MidiFile()` afresh, whose default
resolution is 480. -/
def change_tempo_file (midi : MidiFileM) (r : ℚ) : MidiFileM :=
  if has_tempo_meta midi then
    { midi with
      tracks := midi.tracks.map
        (fun t => { t with msgs := t.msgs.map (change_tempo_msg r) }) }
  else
    { ticks_per_beat := 480,
      tracks := midi.tracks.map
        (fun t => { t with msgs := change_tempo_deltas r t.msgs 0 0 }) }

/-- Model of `change_tempo(path, ratio)` (midi_ops.py lines 31-59): a
non-positive ratio raises `ValueError` (line 33-34), otherwise the transform
applies.  The file-existence check and save are file-system effects outside
the model. -/
def change_tempo (midi : MidiFileM) (r : ℚ) : Except String MidiFileM :=
  if r ≤ 0 then .error "ratio must be > 0" else .ok (change_tempo_file midi r)

/-- Per-message update of `transpose` (midi_ops.py lines 67-68):
`msg.note = max(0, min(127, msg.note + delta))` on note events only. -/
def transpose_msg (delta : ℤ) (m : Msg) : Msg :=
  if m.kind = .note_on ∨ m.kind = .note_off then
    { m with note := (max 0 (min 127 ((m.note : ℤ) + delta))).toNat }
  else m

/-- Model of `transpose(path, delta)` (midi_ops.py lines 62-71). -/
def transpose (midi : MidiFileM) (delta : ℤ) : MidiFileM :=
  { midi with
    tracks := midi.tracks.map
      (fun t => { t with msgs := t.msgs.map (transpose_msg delta) }) }

/-- Model of the closure `time_remap(t)` of `common_to_swing` (midi_ops.py
lines 105-114), with `int()` as truncation toward zero. -/
def time_remap (sec_per_bar : ℚ) (t : ℚ) : ℚ :=
  let n_bar := pytrunc (t / sec_per_bar)
  let bar_start := n_bar * sec_per_bar
  let t_in_bar := t - bar_start
  let ratio_in_bar := t_in_bar / sec_per_bar
  if ratio_in_bar < 1/2 then
    bar_start + ratio_in_bar * 4 / 3 * sec_per_bar
  else
    bar_start + (1/2 + (ratio_in_bar - 1/2) * 2 / 3) * sec_per_bar

/-- Per-track loop of `common_to_swing` (midi_ops.py lines 121-130): running
absolute time in seconds, remap, convert back to ticks, emit the difference
of consecutive new tick positions as the new delta-time (no clamping). -/
def swing_aux (tpb : ℕ) (sec_per_bar mpb : ℚ) : List Msg → ℚ → ℤ → List Msg
  | [], _, _ => []
  | m :: rest, old_abs, acc =>
    let old_abs' := old_abs + tick2second m.time tpb mpb
    let new_tick := second2tick (time_remap sec_per_bar old_abs') tpb mpb
    { m with time := new_tick - acc } ::
      swing_aux tpb sec_per_bar mpb rest old_abs' new_tick

/-- Per-track swing transform with the cached values of midi_ops.py lines
98-103: `beats_per_bar = 2`, `sec_per_bar = 2 / (bpm / 60)`,
`microsec_per_beat = 60_000_000 / bpm`. -/
def common_to_swing_track (tpb : ℕ) (bpm : ℚ) (msgs : List Msg) : List Msg :=
  swing_aux tpb (2 / (bpm / 60)) (60000000 / bpm) msgs 0 0

/-- Model of `common_to_swing` (midi_ops.py lines 93-133), parametrised by
the post-processed tempo estimate `bpm` (an opaque float estimator in the
source).  The new file keeps the input's `ticks_per_beat` (line 117). -/
def common_to_swing (bpm : ℚ) (midi : MidiFileM) : MidiFileM :=
  { ticks_per_beat := midi.ticks_per_beat,
    tracks := midi.tracks.map
      (fun t =>
        { t with
          msgs := common_to_swing_track midi.ticks_per_beat bpm t.msgs }) }

/-- ASCII model of Python `str.lower` on one character (track names in the
source and in the examples are ASCII). -/
def pyLowerChar (c : Char) : Char :=
  if 'A' ≤ c ∧ c ≤ 'Z' then Char.ofNat (c.toNat + 32) else c

/-- Model of `(track.name or '').lower()`. -/
def pyLower (s : List Char) : List Char := s.map pyLowerChar

/-- Boolean test that `sub` starts the list `s`. -/
def startsWithB : List Char → List Char → Bool
  | [], _ => true
  | _ :: _, [] => false
  | a :: as, b :: bs => a == b && startsWithB as bs

/-- Boolean model of Python substring containment `sub in s`. -/
def hasSubstr (sub : List Char) : List Char → Bool
  | [] => sub.isEmpty
  | c :: rest => startsWithB sub (c :: rest) || hasSubstr sub rest

/-- Lower-cased track name, as in midi_ops.py line 148. -/
def lower_name (t : Track) : List Char := pyLower t.name.data

/-- Stage-1 candidate test (midi_ops.py line 152):
`'melody' in name or name == 'mel'`. -/
def is_melody_name (t : Track) : Bool :=
  hasSubstr "melody".data (lower_name t) || lower_name t == "mel".data

/-- Stage-2 candidate test (midi_ops.py line 164): `'lead' in name`. -/
def is_lead_name (t : Track) : Bool :=
  hasSubstr "lead".data (lower_name t)

/-- The `strong_candidates` list of `try_tracks` (midi_ops.py lines 137-141):
tracks whose extraction at tolerance 0.1 is non-null with length above 3,
paired with their extraction, in track order. -/
def strong_candidates (tracks : List Track) : List (Track × List ℕ) :=
  tracks.filterMap (fun t =>
    match extract_pitch_sequence t.msgs (1/10) with
    | some s => if 3 < s.length then some (t, s) else none
    | none => none)

/-- Stable insertion of one element into a list already sorted by descending
sequence length: ties keep the existing element first. -/
def insert_desc (x : Track × List ℕ) :
    List (Track × List ℕ) → List (Track × List ℕ)
  | [] => [x]
  | y :: ys =>
    if y.2.length ≤ x.2.length then x :: y :: ys else y :: insert_desc x ys

/-- Stable sort by descending sequence length.  Python's `list.sort` with
`key=len, reverse=True` is a stable descending sort (midi_ops.py line 145);
a stable sort's output is unique, so this insertion sort models it
exactly. -/
def sort_desc_by_len : List (Track × List ℕ) → List (Track × List ℕ)
  | [] => []
  | x :: xs => insert_desc x (sort_desc_by_len xs)

/-- Model of `try_tracks` (midi_ops.py lines 136-146): `None` when there is
no strong candidate, otherwise the sequence of the first element after the
stable descending sort. -/
def try_tracks (tracks : List Track) : Option (List ℕ) :=
  match sort_desc_by_len (strong_candidates tracks) with
  | [] => none
  | p :: _ => some p.2

/-- Model of `extract_melody_track` (midi_ops.py lines 135-185): the
three-stage name cascade, then the POP909 `MELODY` fallback at tolerance
99999.0.  The `pop909_mel_track, = [...]` unpacking raises `ValueError`
unless exactly one track is named `MELODY` (caught, returning `[]`); the
`assert results is not None` failure propagates as an error. -/
def extract_melody_track (midi : MidiFileM) : Except String (List ℕ) :=
  let cands1 := midi.tracks.filter (fun t => is_melody_name t)
  let rem1 := midi.tracks.filter (fun t => !(is_melody_name t))
  match try_tracks cands1 with
  | some s => .ok s
  | none =>
    let cands2 := rem1.filter (fun t => is_lead_name t)
    let rem2 := rem1.filter (fun t => !(is_lead_name t))
    match try_tracks cands2 with
    | some s => .ok s
    | none =>
      match try_tracks rem2 with
      | some s => .ok s
      | none =>
        match midi.tracks.filter (fun t => t.name == "MELODY") with
        | [t] =>
          match extract_pitch_sequence t.msgs 99999 with
          | some s => .ok s
          | none => .error "AssertionError"
        | _ => .ok []

/-- Model of `_query_sequence` (server.py lines 132-138): the first track
whose extraction at the default tolerance is truthy (neither `None` nor
empty). -/
def query_sequence : List Track → List ℕ
  | [] => []
  | t :: ts =>
    match extract_pitch_sequence t.msgs (1/10) with
    | some s => if s.isEmpty then query_sequence ts else s
    | none => query_sequence ts

/-- An entry of the persisted index (index_db.py lines 35-40). -/
structure IndexEntry where
  path : String
  melody_sequence : List ℕ
deriving DecidableEq

/-- Loop of `build_index` (index_db.py lines 28-47) over parse outcomes:
`mido.MidiFile(midi_path)` on line 31 is NOT wrapped in any handler, so a
parse failure propagates immediately; an extraction failure (the assert in
`extract_melody_track`) also propagates; an empty melody increments
`n_failed`, a non-empty one is appended with `n_ok` incremented. -/
def build_index_aux :
    List (String × Except String MidiFileM) → List IndexEntry → ℕ → ℕ →
    Except String (List IndexEntry × ℕ × ℕ)
  | [], entries, n_ok, n_failed => .ok (entries, n_ok, n_failed)
  | (_, .error e) :: _, _, _, _ => .error e
  | (p, .ok midi) :: rest, entries, n_ok, n_failed =>
    match extract_melody_track midi with
    | .error e => .error e
    | .ok s =>
      if s.isEmpty then build_index_aux rest entries n_ok (n_failed + 1)
      else build_index_aux rest (entries ++ [⟨p, s⟩]) (n_ok + 1) n_failed

/-- Model of `build_index`: each dataset file is a path paired with the
outcome of parsing it. -/
def build_index (files : List (String × Except String MidiFileM)) :
    Except String (List IndexEntry × ℕ × ℕ) :=
  build_index_aux files [] 0 0

/-- Specification-side warp for claim C1, following the claim's words: a
piecewise-linear warp within each beat of `beat_ticks` ticks, first half
stretched onto the first two thirds, second half compressed onto the last
third, relative to the beat origin. -/
def spec_beat_warp (beat_ticks : ℚ) (t : ℚ) : ℚ :=
  let origin := ⌊t / beat_ticks⌋ * beat_ticks
  let t_in_beat := t - origin
  let half_beat := beat_ticks / 2
  if t_in_beat ≤ half_beat then origin + t_in_beat * (2/3) / (1/2)
  else origin + 2/3 * beat_ticks + (t_in_beat - half_beat) * (1/3) / (1/2)

/-- Specification-side extraction for claim C6, following the claim's words:
identical to `extract_aux` except that times are converted through the
file's resolution `R` (`ticks_to_seconds(t) = t * 500000 / (R * 1e6)`). -/
def extract_aux_R (R : ℕ) (tol : ℚ) :
    List Msg → List ℕ → List (ℕ × ℚ) → ℚ → Option (List ℕ)
  | [], seq, _, _ => some seq
  | m :: rest, seq, active, abs0 =>
    let abs1 := abs0 + tick2second m.time R 500000
    if m.kind = .note_on ∧ 0 < m.velocity then
      if active.any (fun p => p.1 == m.note) then
        extract_aux_R R tol rest seq active abs1
      else
        extract_aux_R R tol rest (seq ++ [m.note])
          (active ++ [(m.note, abs1)]) abs1
    else if m.kind = .note_off ∨ (m.kind = .note_on ∧ m.velocity = 0) then
      if active.any (fun p => p.1 == m.note) then
        let active' := active.eraseP (fun p => p.1 == m.note)
        if active'.any (fun p => tol ≤ abs1 - p.2) then none
        else extract_aux_R R tol rest seq active' abs1
      else
        extract_aux_R R tol rest seq active abs1
    else
      extract_aux_R R tol rest seq active abs1

/-- Specification-side extraction for claim C6 at resolution `R`. -/
def extract_pitch_sequence_R (R : ℕ) (track : List Msg) (tol : ℚ) :
    Option (List ℕ) :=
  extract_aux_R R tol track [] [] 0

/-- Specification-side plain pitch-onset extraction for claim C4, following
the claim's words: note numbers in onset order, with no monophonicity
gate. -/
def plain_onsets_aux : List Msg → List ℕ → List ℕ → List ℕ
  | [], seq, _ => seq
  | m :: rest, seq, active =>
    if m.kind = .note_on ∧ 0 < m.velocity then
      if m.note ∈ active then plain_onsets_aux rest seq active
      else plain_onsets_aux rest (seq ++ [m.note]) (active ++ [m.note])
    else if m.kind = .note_off ∨ (m.kind = .note_on ∧ m.velocity = 0) then
      plain_onsets_aux rest seq (active.erase m.note)
    else
      plain_onsets_aux rest seq active

/-- Specification-side plain onset sequence of one track (claim C4). -/
def plain_onsets (track : List Msg) : List ℕ :=
  plain_onsets_aux track [] []

/-- Specification-side query extraction for claim C4, following the claim's
words: the first track yielding any non-empty plain pitch-onset sequence. -/
def query_sequence_spec : List Track → List ℕ
  | [] => []
  | t :: ts =>
    if (plain_onsets t.msgs).isEmpty then query_sequence_spec ts
    else plain_onsets t.msgs

/-- Statement helper for claim C10, following the claim's words: the distinct
note numbers in onset order, an onset being skipped while its note is still
regarded as sounding. -/
def distinct_onsets_from (seen : List ℕ) : List Msg → List ℕ
  | [] => []
  | m :: rest =>
    if m.kind = .note_on ∧ 0 < m.velocity ∧ ¬ m.note ∈ seen then
      m.note :: distinct_onsets_from (m.note :: seen) rest
    else
      distinct_onsets_from seen rest

/-- Message constructors used by the concrete examples below. -/
def onMsg (n : ℕ) (t : ℤ) : Msg := ⟨.note_on, n, 64, 0, t⟩

/-- A note-off message with the given note and delta-time. -/
def offMsg (n : ℕ) (t : ℤ) : Msg := ⟨.note_off, n, 64, 0, t⟩

/-- A `set_tempo` meta message with the given tempo and delta-time. -/
def tempoMsg (tempo : ℕ) (t : ℤ) : Msg := ⟨.set_tempo, 0, 0, tempo, t⟩

/-- Statement helper for claim C3: the entries `build_index` is expected to
collect over parse-successful files, in dataset order. -/
def index_entries (items : List (String × MidiFileM)) : List IndexEntry :=
  items.filterMap (fun pm =>
    match extract_melody_track pm.2 with
    | .ok s => if s.isEmpty then none else some ⟨pm.1, s⟩
    | .error _ => none)

/-- Statement helper for claim C3: how many files yield a non-empty melody. -/
def count_ok (items : List (String × MidiFileM)) : ℕ :=
  (items.filter (fun pm =>
    match extract_melody_track pm.2 with
    | .ok s => !s.isEmpty
    | .error _ => false)).length

/-- Statement helper for claim C3: how many files yield an empty melody and
are counted as skipped. -/
def count_failed (items : List (String × MidiFileM)) : ℕ :=
  (items.filter (fun pm =>
    match extract_melody_track pm.2 with
    | .ok s => s.isEmpty
    | .error _ => false)).length

/-- Example track for claim C1: one event 360 ticks into the file. -/
def ex_c1_msgs : List Msg := [onMsg 60 360]

/-- Example track for claim C2: events at 384 and 480 absolute ticks, which
straddle the half-bar point of the swing warp. -/
def ex_c2_msgs : List Msg := [onMsg 60 384, offMsg 60 96]

/-- A strictly monophonic four-note track. -/
def ex_mono4 : List Msg :=
  [onMsg 60 0, offMsg 60 480, onMsg 62 10, offMsg 62 480,
   onMsg 64 10, offMsg 64 480, onMsg 65 10, offMsg 65 480]

/-- A strictly monophonic five-note track. -/
def ex_mono5 : List Msg :=
  [onMsg 70 0, offMsg 70 480, onMsg 71 10, offMsg 71 480,
   onMsg 72 10, offMsg 72 480, onMsg 73 10, offMsg 73 480,
   onMsg 74 10, offMsg 74 480]

/-- A polyphonic track: two overlapping notes held 0.1 s apart at release. -/
def ex_poly : List Msg := [onMsg 60 0, onMsg 64 0, offMsg 64 96]

/-- Example file for claim C3: a track named "melody" holding `ex_mono4`. -/
def ex_c3_good : MidiFileM := ⟨480, [⟨"melody", ex_mono4⟩]⟩

/-- Example file for claim C3 whose melody extraction is empty. -/
def ex_c3_empty : MidiFileM := ⟨480, []⟩

/-- Example track list for claim C4: a polyphonic first track followed by a
single-note second track. -/
def ex_c4_tracks : List Track :=
  [⟨"t1", ex_poly⟩, ⟨"t2", [onMsg 60 0, offMsg 60 480]⟩]

/-- Example file for claim C5: one tempo event at 500000 µs per quarter. -/
def ex_c5_file : MidiFileM := ⟨480, [⟨"", [tempoMsg 500000 0]⟩]⟩

/-- Example track for claim C6: the onset gap is 96 ticks, i.e. 0.1 s at the
hard-coded 480 ppq but 0.05 s at resolution 960. -/
def ex_c6_msgs : List Msg :=
  [onMsg 60 0, onMsg 64 96, offMsg 64 0, offMsg 60 0]

/-- Example track list for claim C7: a four-note survivor before a five-note
survivor. -/
def ex_c7_tracks : List Track := [⟨"a", ex_mono4⟩, ⟨"b", ex_mono5⟩]

/-- Example track for claim C10: three simultaneous unreleased notes and one
repeated onset. -/
def ex_c10_msgs : List Msg :=
  [onMsg 60 0, onMsg 64 0, onMsg 67 0, onMsg 60 10]

theorem pytrunc_eval (q : ℚ) (z : ℤ) (hz : 0 ≤ z) (h1 : (z : ℚ) ≤ q)
    (h2 : q < z + 1) : pytrunc q = z := by
  have h0 : (0 : ℚ) ≤ q := le_trans (by exact_mod_cast hz) h1
  rw [pytrunc, if_pos h0, Int.floor_eq_iff]
  exact ⟨h1, h2⟩

theorem pytrunc_floor (q : ℚ) (h0 : 0 ≤ q) : pytrunc q = ⌊q⌋ := by
  rw [pytrunc, if_pos h0]

theorem pyRound_eval_low (q : ℚ) (z : ℤ) (h1 : (z : ℚ) ≤ q)
    (h2 : q < z + 1/2) : pyRound q = z := by
  have hf : ⌊q⌋ = z := by
    rw [Int.floor_eq_iff]
    constructor
    · exact h1
    · have : (z : ℚ) + 1/2 < z + 1 := by norm_num
      linarith
  rw [pyRound, hf]
  rw [if_pos]
  linarith

theorem pyRound_eval_high (q : ℚ) (z : ℤ) (h1 : (z : ℚ) + 1/2 < q)
    (h2 : q < z + 1) : pyRound q = z + 1 := by
  have hf : ⌊q⌋ = z := by
    rw [Int.floor_eq_iff]
    constructor
    · have : (z : ℚ) ≤ z + 1/2 := by norm_num
      linarith
    · exact h2
  rw [pyRound, hf]
  rw [if_neg, if_pos]
  · linarith
  · linarith

theorem forall2_map_self {α β : Type} (l : List α) (f : α → β)
    (P : α → β → Prop) (h : ∀ a ∈ l, P a (f a)) :
    List.Forall₂ P l (l.map f) := by
  induction l with
  | nil => simp
  | cons x xs ih =>
    exact List.Forall₂.cons (h x (by simp))
      (ih (fun a ha => h a (by simp [ha])))

theorem swing_aux_length (tpb : ℕ) (spb mpb : ℚ) (msgs : List Msg) :
    ∀ a b, (swing_aux tpb spb mpb msgs a b).length = msgs.length := by
  induction msgs with
  | nil => intro a b; rfl
  | cons m rest ih =>
    intro a b
    simp only [swing_aux, List.length_cons]
    rw [ih]

/-- C2 (amended): SwingWarp preserves the track count and the event count of
every track; its delta-times are differences of consecutive rounded remapped
positions with no clamping, so they are not in general non-negative (see the
counterexample). -/
theorem c2_swing_preserves_counts (bpm : ℚ) (midi : MidiFileM) :
    (common_to_swing bpm midi).tracks.length = midi.tracks.length ∧
      List.Forall₂ (fun t t' => t'.msgs.length = t.msgs.length)
        midi.tracks (common_to_swing bpm midi).tracks := by
  constructor
  · simp [common_to_swing]
  · apply forall2_map_self
    intro t _
    simp only []
    rw [common_to_swing_track, swing_aux_length]

/-- C2 (counterexample): on a track with events at absolute ticks 384 and 480
(resolution 480, bpm 120), the swing transform emits the delta-times
`[512, -32]` — the second delta-time is negative, no clamping occurs. -/
theorem c2_counterexample :
    (common_to_swing_track 480 120 ex_c2_msgs).map Msg.time = [512, -32] ∧
      ¬ (0 : ℤ) ≤ -32 := by
  constructor
  · have e1 : pytrunc ((2 : ℚ)/5) = 0 :=
      pytrunc_eval _ 0 le_rfl (by norm_num) (by norm_num)
    have e2 : pyRound ((512 : ℚ)) = 512 :=
      pyRound_eval_low _ 512 (by norm_num) (by norm_num)
    have e3 : pytrunc ((1 : ℚ)/2) = 0 :=
      pytrunc_eval _ 0 le_rfl (by norm_num) (by norm_num)
    have e4 : pyRound ((480 : ℚ)) = 480 :=
      pyRound_eval_low _ 480 (by norm_num) (by norm_num)
    norm_num [ex_c2_msgs, onMsg, offMsg, common_to_swing_track, swing_aux,
      tick2second, second2tick, time_remap, e1, e2, e3, e4]
  · norm_num

/-- C8: Transpose sets every note-on/note-off event's note number to
`clamp(old_note + delta, 0, 127)` — hence every output note number lies in
[0, 127] — and leaves every other event unchanged; it is a total function. -/
theorem c8_transpose_clamps (midi : MidiFileM) (delta : ℤ) :
    List.Forall₂ (fun t t' =>
      List.Forall₂ (fun m m' =>
        ((m.kind = .note_on ∨ m.kind = .note_off) →
          m' = { m with note := (max 0 (min 127 ((m.note : ℤ) + delta))).toNat }
            ∧ m'.note ≤ 127) ∧
        (¬ (m.kind = .note_on ∨ m.kind = .note_off) → m' = m))
        t.msgs t'.msgs)
      midi.tracks (transpose midi delta).tracks := by
  apply forall2_map_self
  intro t _
  apply forall2_map_self
  intro m _
  constructor
  · intro hk
    rw [transpose_msg, if_pos hk]
    refine ⟨rfl, ?_⟩
    simp only []
    omega
  · intro hk
    rw [transpose_msg, if_neg hk]

theorem gen_tries_spec (collides : ℕ → Bool) (j : ℕ) :
    ∀ fuel k, gen_tries collides fuel k = some j ↔
      k ≤ j ∧ j < k + fuel ∧ collides j = false ∧
        ∀ i, k ≤ i → i < j → collides i = true := by
  intro fuel
  induction fuel with
  | zero =>
    intro k
    simp only [gen_tries]
    constructor
    · intro h; exact absurd h (by simp)
    · intro h; omega
  | succ fuel ih =>
    intro k
    simp only [gen_tries]
    by_cases hc : collides k
    · rw [if_pos hc, ih (k + 1)]
      constructor
      · rintro ⟨h1, h2, h3, h4⟩
        refine ⟨by omega, by omega, h3, ?_⟩
        intro i hik hij
        rcases Nat.eq_or_lt_of_le hik with hik' | hik'
        · rwa [← hik']
        · exact h4 i (by omega) hij
      · rintro ⟨h1, h2, h3, h4⟩
        have hkj : k ≠ j := by
          intro hkj
          rw [hkj, h3] at hc
          exact Bool.noConfusion hc
        refine ⟨by omega, by omega, h3, fun i hik hij => h4 i (by omega) hij⟩
    · rw [if_neg hc]
      constructor
      · intro h
        have hjk : j = k := by
          have := Option.some.inj h
          omega
        subst hjk
        exact ⟨le_rfl, by omega, by simpa using hc, fun i h1 h2 => by omega⟩
      · rintro ⟨h1, h2, h3, h4⟩
        have hjk : k = j := by
          by_contra hne
          have : collides k = true := h4 k le_rfl (by omega)
          rw [this] at hc
          exact hc rfl
        rw [hjk]

/-- C9 (amended): the name-generation loop retries without bound: within any
observation budget `fuel` it returns exactly the first candidate index whose
name does not already exist; it has no failure exit, so when every candidate
collides it never returns (see the counterexample). -/
theorem c9_generate_output_path_amended (collides : ℕ → Bool) (fuel j : ℕ) :
    generate_output_path collides fuel = some j ↔
      j < fuel ∧ collides j = false ∧ ∀ i, i < j → collides i = true := by
  rw [generate_output_path, gen_tries_spec]
  constructor
  · rintro ⟨_, h2, h3, h4⟩
    exact ⟨by omega, h3, fun i hij => h4 i (by omega) hij⟩
  · rintro ⟨h1, h2, h3⟩
    exact ⟨by omega, by omega, h2, fun i _ hij => h3 i hij⟩

theorem gen_tries_all_collide (fuel : ℕ) :
    ∀ k, gen_tries (fun _ => true) fuel k = none := by
  induction fuel with
  | zero => intro k; rfl
  | succ fuel ih => intro k; simp only [gen_tries, if_pos]; exact ih (k + 1)

/-- C9 (counterexample): when every generated candidate name already exists,
the `while True` loop of `_generate_output_path` never returns — it is still
running after every finite number of iterations, and there is no bounded
retry count after which an Internal error is raised. -/
theorem c9_counterexample :
    (∀ fuel, generate_output_path (fun _ => true) fuel = none) ∧
      ¬ ∃ fuel j, generate_output_path (fun _ => true) fuel = some j := by
  have h : ∀ fuel, generate_output_path (fun _ => true) fuel = none :=
    fun fuel => gen_tries_all_collide fuel 0
  refine ⟨h, ?_⟩
  rintro ⟨fuel, j, hj⟩
  rw [h fuel] at hj
  exact Option.noConfusion hj

theorem any_key_iff (active : List (ℕ × ℚ)) (n : ℕ) :
    active.any (fun p => p.1 == n) = true ↔ n ∈ active.map Prod.fst := by
  rw [List.any_eq_true]
  constructor
  · rintro ⟨p, hp, he⟩
    rw [List.mem_map]
    exact ⟨p, hp, by simpa using he.symm⟩
  · intro hm
    rw [List.mem_map] at hm
    obtain ⟨p, hp, he⟩ := hm
    exact ⟨p, hp, by simpa using he⟩

theorem distinct_onsets_from_congr (msgs : List Msg) :
    ∀ s1 s2 : List ℕ, (∀ n, n ∈ s1 ↔ n ∈ s2) →
      distinct_onsets_from s1 msgs = distinct_onsets_from s2 msgs := by
  induction msgs with
  | nil => intro s1 s2 _; rfl
  | cons m rest ih =>
    intro s1 s2 hmem
    simp only [distinct_onsets_from]
    by_cases hc : m.kind = .note_on ∧ 0 < m.velocity ∧ ¬ m.note ∈ s1
    · rw [if_pos hc, if_pos (by rw [← hmem m.note] at *; exact hc)]
      have : ∀ n, n ∈ m.note :: s1 ↔ n ∈ m.note :: s2 := by
        intro n
        simp only [List.mem_cons]
        rw [hmem n]
      rw [ih _ _ this]
    · rw [if_neg hc, if_neg (by rw [← hmem m.note] at *; exact hc)]
      exact ih _ _ hmem

theorem c10_aux (tol : ℚ) (msgs : List Msg)
    (hno : ∀ m ∈ msgs,
      ¬ (m.kind = .note_off ∨ (m.kind = .note_on ∧ m.velocity = 0))) :
    ∀ (seq : List ℕ) (active : List (ℕ × ℚ)) (abs0 : ℚ),
      extract_aux tol msgs seq active abs0 =
        some (seq ++ distinct_onsets_from (active.map Prod.fst) msgs) := by
  induction msgs with
  | nil => intro seq active abs0; simp [extract_aux, distinct_onsets_from]
  | cons m rest ih =>
    have hm : ¬ (m.kind = .note_off ∨ (m.kind = .note_on ∧ m.velocity = 0)) :=
      hno m (by simp)
    have hrest : ∀ x ∈ rest,
        ¬ (x.kind = .note_off ∨ (x.kind = .note_on ∧ x.velocity = 0)) :=
      fun x hx => hno x (by simp [hx])
    intro seq active abs0
    simp only [extract_aux, distinct_onsets_from]
    by_cases hk : m.kind = .note_on ∧ 0 < m.velocity
    · rw [if_pos hk]
      by_cases hmem : active.any (fun p => p.1 == m.note) = true
      · rw [if_pos hmem]
        have hnotenew : ¬ (m.kind = .note_on ∧ 0 < m.velocity ∧
            ¬ m.note ∈ active.map Prod.fst) := by
          rw [any_key_iff] at hmem
          tauto
        rw [if_neg hnotenew]
        exact ih hrest seq active _
      · rw [if_neg hmem]
        have hnotemem : ¬ m.note ∈ active.map Prod.fst := by
          rw [← any_key_iff]
          simpa using hmem
        rw [if_pos ⟨hk.1, hk.2, hnotemem⟩]
        rw [ih hrest (seq ++ [m.note]) (active ++ [(m.note, _)]) _]
        have hcongr :
            distinct_onsets_from ((active ++
                [(m.note, abs0 + tick2second m.time 480 500000)]).map Prod.fst)
              rest =
            distinct_onsets_from (m.note :: active.map Prod.fst) rest := by
          apply distinct_onsets_from_congr
          intro n
          simp only [List.map_append, List.map_cons, List.map_nil,
            List.mem_append, List.mem_cons, List.mem_singleton,
            List.not_mem_nil, or_false]
          tauto
        rw [hcongr, List.append_assoc]
        rfl
    · rw [if_neg hk]
      have hoff : ¬ (m.kind = .note_off ∨ (m.kind = .note_on ∧ m.velocity = 0)) :=
        hm
      rw [if_neg hoff]
      have hnote : ¬ (m.kind = .note_on ∧ 0 < m.velocity ∧
          ¬ m.note ∈ active.map Prod.fst) := by tauto
      rw [if_neg hnote]
      exact ih hrest seq active _

/-- C10: on a track containing no note-off events and no velocity-zero
note-on events, `extract_pitch_sequence` returns a non-null sequence — the
distinct note numbers in onset order — for every tolerance: the
monophonicity check only runs when a note is released, so a track of
unreleased overlapping notes is never judged non-monophonic. -/
theorem c10_unreleased_never_non_monophonic (track : List Msg) (tol : ℚ)
    (hno : ∀ m ∈ track,
      ¬ (m.kind = .note_off ∨ (m.kind = .note_on ∧ m.velocity = 0))) :
    extract_pitch_sequence track tol = some (distinct_onsets_from [] track) := by
  rw [extract_pitch_sequence, c10_aux tol track hno [] [] 0]
  rfl

/-- C10 (witness): three simultaneously held, never released notes plus a
duplicate onset yield `some [60, 64, 67]` at the default tolerance. -/
theorem c10_witness :
    (∀ m ∈ ex_c10_msgs,
      ¬ (m.kind = .note_off ∨ (m.kind = .note_on ∧ m.velocity = 0))) ∧
      extract_pitch_sequence ex_c10_msgs (1/10) = some [60, 64, 67] := by
  constructor
  · decide
  · rw [c10_unreleased_never_non_monophonic ex_c10_msgs (1/10) (by decide)]
    rfl

theorem extract_aux_eq_R480 (tol : ℚ) (msgs : List Msg) :
    ∀ seq active abs0,
      extract_aux tol msgs seq active abs0 =
        extract_aux_R 480 tol msgs seq active abs0 := by
  induction msgs with
  | nil => intro seq active abs0; rfl
  | cons m rest ih =>
    intro seq active abs0
    simp only [extract_aux, extract_aux_R]
    split_ifs <;> simp [ih]

/-- C6 (amended): `extract_pitch_sequence` converts times with the hard-coded
`tick2second(msg.time, 480, 500000)` of midi_ops.py line 196, independent of
the file's resolution; it agrees with the specification formula
`ticks_to_seconds(t) = t * µ / (R * 1e6)` exactly when `R = 480`. -/
theorem c6_extraction_fixed_resolution (track : List Msg) (tol : ℚ) :
    extract_pitch_sequence track tol = extract_pitch_sequence_R 480 track tol :=
  extract_aux_eq_R480 tol track [] [] 0

/-- C6 (counterexample): on a track whose onsets are 96 ticks apart, the code
judges it non-monophonic at tolerance 0.1 s (96 ticks = 0.1 s at the
hard-coded 480 ppq) even when the file's resolution is 960, where the spec's
formula gives a 0.05 s overlap and the sequence `[60, 64]`: the comparison
does not depend on the file's actual resolution. -/
theorem c6_counterexample :
    extract_pitch_sequence ex_c6_msgs (1/10) = none ∧
      extract_pitch_sequence_R 960 ex_c6_msgs (1/10) = some [60, 64] := by
  constructor
  · norm_num +decide [ex_c6_msgs, onMsg, offMsg, extract_pitch_sequence,
      extract_aux, tick2second]
  · norm_num +decide [ex_c6_msgs, onMsg, offMsg, extract_pitch_sequence_R,
      extract_aux_R, tick2second]

/-- C4 (amended): the Retrieval Matcher's query sequence comes from the first
track whose extraction at the default 0.1 s monophonicity tolerance is
neither `None` nor empty — the monophonicity gate IS applied to the query,
and a track judged non-monophonic is skipped. -/
theorem c4_query_gate_amended (tracks : List Track) (s : List ℕ)
    (hq : query_sequence tracks = s) (hne : s ≠ []) :
    ∃ pre t post, tracks = pre ++ t :: post ∧
      extract_pitch_sequence t.msgs (1/10) = some s ∧
      ∀ u ∈ pre, extract_pitch_sequence u.msgs (1/10) = none ∨
        extract_pitch_sequence u.msgs (1/10) = some [] := by
  induction tracks with
  | nil =>
    rw [query_sequence] at hq
    exact absurd hq.symm hne
  | cons t ts ih =>
    cases he : extract_pitch_sequence t.msgs (1/10) with
    | none =>
      simp only [query_sequence, he] at hq
      obtain ⟨pre, t', post, hsplit, hext, hpre⟩ := ih hq
      refine ⟨t :: pre, t', post, by rw [hsplit]; rfl, hext, ?_⟩
      intro u hu
      rcases List.mem_cons.mp hu with rfl | hu'
      · exact Or.inl he
      · exact hpre u hu'
    | some s' =>
      simp only [query_sequence, he] at hq
      by_cases hemp : s'.isEmpty
      · rw [if_pos hemp] at hq
        obtain ⟨pre, t', post, hsplit, hext, hpre⟩ := ih hq
        refine ⟨t :: pre, t', post, by rw [hsplit]; rfl, hext, ?_⟩
        intro u hu
        rcases List.mem_cons.mp hu with rfl | hu'
        · refine Or.inr ?_
          rw [he, List.isEmpty_iff.mp hemp]
        · exact hpre u hu'
      · rw [if_neg hemp] at hq
        exact ⟨[], t, ts, rfl, by rw [he, hq], by simp⟩

/-- C4 (counterexample): on a file whose first track is polyphonic (two held
notes, released 0.1 s after the overlap began), `_query_sequence` skips that
track — its gated extraction is `None` — and answers `[60]` from the second
track, while the claim's ungated plain pitch-onset extraction of the first
track is the non-empty `[60, 64]`. -/
theorem c4_counterexample :
    query_sequence ex_c4_tracks = [60] ∧
      query_sequence_spec ex_c4_tracks = [60, 64] ∧
      ([60] : List ℕ) ≠ [60, 64] := by
  refine ⟨?_, by decide, by decide⟩
  norm_num +decide [ex_c4_tracks, ex_poly, onMsg, offMsg, query_sequence,
    extract_pitch_sequence, extract_aux, tick2second]

/-- C4 (witness): the amended characterisation instantiated on
`ex_c4_tracks`. -/
theorem c4_witness :
    query_sequence ex_c4_tracks = [60] ∧ ([60] : List ℕ) ≠ [] ∧
      ∃ pre t post, ex_c4_tracks = pre ++ t :: post ∧
        extract_pitch_sequence t.msgs (1/10) = some [60] ∧
        ∀ u ∈ pre, extract_pitch_sequence u.msgs (1/10) = none ∨
          extract_pitch_sequence u.msgs (1/10) = some [] := by
  have hq : query_sequence ex_c4_tracks = [60] := by
    norm_num +decide [ex_c4_tracks, ex_poly, onMsg, offMsg, query_sequence,
      extract_pitch_sequence, extract_aux, tick2second]
  exact ⟨hq, by decide, c4_query_gate_amended ex_c4_tracks [60] hq (by decide)⟩

theorem insert_desc_ne_nil (x : Track × List ℕ) (l : List (Track × List ℕ)) :
    insert_desc x l ≠ [] := by
  cases l with
  | nil => simp [insert_desc]
  | cons y ys =>
    simp only [insert_desc]
    split_ifs <;> simp

theorem sort_desc_nil_iff (l : List (Track × List ℕ)) :
    sort_desc_by_len l = [] ↔ l = [] := by
  cases l with
  | nil => simp [sort_desc_by_len]
  | cons x xs =>
    simp only [sort_desc_by_len]
    constructor
    · intro h
      exact absurd h (insert_desc_ne_nil _ _)
    · intro h
      exact List.noConfusion h

theorem sort_desc_head (l : List (Track × List ℕ)) :
    ∀ x xs, sort_desc_by_len l = x :: xs →
      (∀ p ∈ l, p.2.length ≤ x.2.length) ∧
      ∃ l1 l2, l = l1 ++ x :: l2 ∧ ∀ q ∈ l1, q.2.length < x.2.length := by
  induction l with
  | nil =>
    intro x xs h
    exact absurd h (by simp [sort_desc_by_len])
  | cons a t ih =>
    intro x xs h
    rw [sort_desc_by_len] at h
    cases hs : sort_desc_by_len t with
    | nil =>
      rw [hs] at h
      simp only [insert_desc] at h
      have hx : a = x := (List.cons.inj h).1
      have ht : t = [] := (sort_desc_nil_iff t).mp hs
      subst hx
      subst ht
      refine ⟨?_, [], [], rfl, by simp⟩
      intro p hp
      rcases List.mem_singleton.mp hp with rfl
      exact le_rfl
    | cons y ys =>
      rw [hs] at h
      obtain ⟨hle, l1, l2, hsp, hlt⟩ := ih y ys hs
      simp only [insert_desc] at h
      by_cases hc : y.2.length ≤ a.2.length
      · rw [if_pos hc] at h
        have hx : a = x := (List.cons.inj h).1
        subst hx
        constructor
        · intro p hp
          rcases List.mem_cons.mp hp with rfl | hp'
          · exact le_rfl
          · exact le_trans (hle p hp') hc
        · exact ⟨[], t, rfl, by simp⟩
      · rw [if_neg hc] at h
        have hx : y = x := (List.cons.inj h).1
        subst hx
        have halt : a.2.length < y.2.length := by omega
        constructor
        · intro p hp
          rcases List.mem_cons.mp hp with rfl | hp'
          · exact le_of_lt halt
          · exact hle p hp'
        · refine ⟨a :: l1, l2, by rw [hsp]; rfl, ?_⟩
          intro q hq
          rcases List.mem_cons.mp hq with rfl | hq'
          · exact halt
          · exact hlt q hq'

/-- C7: whenever `try_tracks` returns a sequence, that sequence belongs to a
strong candidate (non-null extraction of length above 3), no strong
candidate's sequence is longer, and every strong candidate listed earlier —
i.e. from a track of smaller index — is strictly shorter, so equal maximal
lengths are resolved in favour of the earliest track. -/
theorem c7_try_tracks_longest_earliest (tracks : List Track) (s : List ℕ)
    (h : try_tracks tracks = some s) :
    (∀ p ∈ strong_candidates tracks, p.2.length ≤ s.length) ∧
      ∃ l1 tk l2, strong_candidates tracks = l1 ++ (tk, s) :: l2 ∧
        ∀ q ∈ l1, q.2.length < s.length := by
  rw [try_tracks] at h
  cases hs : sort_desc_by_len (strong_candidates tracks) with
  | nil =>
    rw [hs] at h
    exact Option.noConfusion h
  | cons p ps =>
    rw [hs] at h
    have hps : p.2 = s := Option.some.inj h
    obtain ⟨hle, l1, l2, hsp, hlt⟩ := sort_desc_head _ p ps hs
    refine ⟨fun q hq => hps ▸ hle q hq, l1, p.1, l2, ?_, fun q hq => hps ▸ hlt q hq⟩
    rw [hsp, ← hps]

/-- C7 (witness): with a 4-note survivor before a 5-note survivor,
`try_tracks` answers the 5-note sequence and the characterisation holds. -/
theorem c7_witness :
    try_tracks ex_c7_tracks = some [70, 71, 72, 73, 74] ∧
      ((∀ p ∈ strong_candidates ex_c7_tracks,
          p.2.length ≤ ([70, 71, 72, 73, 74] : List ℕ).length) ∧
        ∃ l1 tk l2, strong_candidates ex_c7_tracks =
            l1 ++ (tk, [70, 71, 72, 73, 74]) :: l2 ∧
          ∀ q ∈ l1, q.2.length < ([70, 71, 72, 73, 74] : List ℕ).length) := by
  have ht : try_tracks ex_c7_tracks = some [70, 71, 72, 73, 74] := by
    norm_num +decide [ex_c7_tracks, ex_mono4, ex_mono5, onMsg, offMsg,
      try_tracks, strong_candidates, sort_desc_by_len, insert_desc,
      extract_pitch_sequence, extract_aux, tick2second]
  exact ⟨ht, c7_try_tracks_longest_earliest ex_c7_tracks _ ht⟩

theorem time_remap_eq (spb t : ℚ) (hspb : spb ≠ 0) :
    time_remap spb t =
      if t / spb - pytrunc (t / spb) < 1/2 then
        (pytrunc (t / spb) : ℚ) * spb +
          (t / spb - pytrunc (t / spb)) * 4 / 3 * spb
      else
        (pytrunc (t / spb) : ℚ) * spb +
          (1/2 + (t / spb - pytrunc (t / spb) - 1/2) * 2 / 3) * spb := by
  simp only [time_remap]
  have hratio : (t - (pytrunc (t / spb) : ℚ) * spb) / spb =
      t / spb - pytrunc (t / spb) := by
    field_simp
    ring
  rw [hratio]

/-- C1 (amended): `common_to_swing` remaps each absolute position in seconds
within its enclosing 2-beat bar, not within its beat: with
`r = t / sec_per_bar - n` the fractional position in bar `n`, a position in
the first half of the bar maps to `bar_start + r * 4/3 * sec_per_bar` and a
position in the second half maps to
`bar_start + (1/2 + (r - 1/2) * 2/3) * sec_per_bar`; bar starts are fixed
points, but the warp is NOT monotone (hence not the claim's continuous
per-beat warp): just before the half-bar it maps close to 2/3 of the bar,
and at the half-bar it drops back to 1/2. -/
theorem c1_time_remap_amended (spb t : ℚ) (n : ℤ) (hspb : 0 < spb)
    (ht : 0 ≤ t) (hn : n = pytrunc (t / spb)) :
    (t / spb - n < 1/2 →
      time_remap spb t = n * spb + (t / spb - n) * 4 / 3 * spb) ∧
    (1/2 ≤ t / spb - n →
      time_remap spb t =
        n * spb + (1/2 + (t / spb - n - 1/2) * 2 / 3) * spb) ∧
    (∀ k : ℕ, time_remap spb ((k : ℚ) * spb) = (k : ℚ) * spb) ∧
    ¬ (∀ a b : ℚ, 0 ≤ a → a ≤ b → time_remap spb a ≤ time_remap spb b) := by
  have hspb' : spb ≠ 0 := ne_of_gt hspb
  subst hn
  have hv1 : time_remap spb (2/5 * spb) = 8/15 * spb := by
    have harg : (2/5 * spb) / spb = 2/5 := by
      field_simp
      ring
    have he : pytrunc ((2/5 * spb) / spb) = 0 := by
      rw [harg]
      exact pytrunc_eval _ 0 le_rfl (by norm_num) (by norm_num)
    rw [time_remap_eq _ _ hspb', he, harg]
    rw [if_pos (by norm_num)]
    push_cast
    ring
  have hv2 : time_remap spb (1/2 * spb) = 1/2 * spb := by
    have harg : (1/2 * spb) / spb = 1/2 := by
      field_simp
      ring
    have he : pytrunc ((1/2 * spb) / spb) = 0 := by
      rw [harg]
      exact pytrunc_eval _ 0 le_rfl (by norm_num) (by norm_num)
    rw [time_remap_eq _ _ hspb', he, harg]
    rw [if_neg (by norm_num)]
    push_cast
    ring
  refine ⟨?_, ?_, ?_, ?_⟩
  · intro hlt
    rw [time_remap_eq _ _ hspb', if_pos hlt]
  · intro hge
    rw [time_remap_eq _ _ hspb', if_neg (not_lt.mpr hge)]
  · intro k
    have harg : ((k : ℚ) * spb) / spb = (k : ℚ) := by field_simp
    have he : pytrunc (((k : ℚ) * spb) / spb) = (k : ℤ) := by
      rw [harg]
      refine pytrunc_eval _ k (by positivity) (by push_cast; exact le_rfl) ?_
      push_cast
      linarith
    rw [time_remap_eq _ _ hspb', he, harg]
    rw [if_pos (by push_cast; norm_num)]
    push_cast
    ring
  · intro hmono
    have hab : (2/5 : ℚ) * spb ≤ 1/2 * spb := by nlinarith
    have h0a : (0 : ℚ) ≤ 2/5 * spb := by nlinarith
    have := hmono _ _ h0a hab
    rw [hv1, hv2] at this
    nlinarith

/-- C1 (counterexample): at resolution 480 and bpm 120 the event 360 ticks
into the file (second half of beat 0) is emitted at absolute tick 480 by the
code, while the claim's per-beat formula
`new = (2/3)*beat_ticks + (t_in_beat - half_beat)*(1/3)/0.5` puts it at tick
400: the code does not implement the claimed warp, and the half-beat
boundary 240 would map to 480*2/3 = 320 ≠ 240, so beat boundaries do not map
to themselves either. -/
theorem c1_counterexample :
    (common_to_swing_track 480 120 ex_c1_msgs).map Msg.time = [480] ∧
      spec_beat_warp 480 360 = 400 ∧ ((480 : ℚ) ≠ 400) := by
  refine ⟨?_, ?_, by norm_num⟩
  · have e1 : pytrunc ((3 : ℚ)/8) = 0 :=
      pytrunc_eval _ 0 le_rfl (by norm_num) (by norm_num)
    have e2 : pyRound ((480 : ℚ)) = 480 :=
      pyRound_eval_low _ 480 (by norm_num) (by norm_num)
    norm_num [ex_c1_msgs, onMsg, common_to_swing_track, swing_aux,
      tick2second, second2tick, time_remap, e1, e2]
  · have e3 : ⌊(360 : ℚ)/480⌋ = 0 :=
      Int.floor_eq_iff.mpr ⟨by norm_num, by norm_num⟩
    norm_num [spec_beat_warp, e3]

/-- C1 (witness): the amended characterisation instantiated at
`sec_per_bar = 1`, `t = 3/4`, `n = 0`. -/
theorem c1_witness :
    (0 : ℚ) < 1 ∧ (0 : ℚ) ≤ 3/4 ∧ (0 : ℤ) = pytrunc ((3/4 : ℚ) / 1) ∧
      (((3/4 : ℚ) / 1 - ((0 : ℤ) : ℚ) < 1/2 →
        time_remap 1 (3/4) =
          ((0 : ℤ) : ℚ) * 1 + ((3/4 : ℚ) / 1 - ((0 : ℤ) : ℚ)) * 4 / 3 * 1) ∧
      (1/2 ≤ (3/4 : ℚ) / 1 - ((0 : ℤ) : ℚ) →
        time_remap 1 (3/4) =
          ((0 : ℤ) : ℚ) * 1 +
            (1/2 + ((3/4 : ℚ) / 1 - ((0 : ℤ) : ℚ) - 1/2) * 2 / 3) * 1) ∧
      (∀ k : ℕ, time_remap 1 ((k : ℚ) * 1) = (k : ℚ) * 1) ∧
      ¬ (∀ a b : ℚ, 0 ≤ a → a ≤ b → time_remap 1 a ≤ time_remap 1 b)) := by
  have hn : (0 : ℤ) = pytrunc ((3/4 : ℚ) / 1) :=
    (pytrunc_eval _ 0 le_rfl (by norm_num) (by norm_num)).symm
  exact ⟨by norm_num, by norm_num, hn,
    c1_time_remap_amended 1 (3/4) 0 (by norm_num) (by norm_num) hn⟩

theorem change_tempo_msg_kind (r : ℚ) (m : Msg) :
    (change_tempo_msg r m).kind = m.kind := by
  rw [change_tempo_msg]
  split_ifs <;> rfl

theorem roundtrip_val_bounds (t : ℕ) (ht : 1 ≤ t) (r : ℚ) (hr0 : 0 < r)
    (hr1 : r ≤ 1) :
    (t : ℤ) - 1 ≤
        ((max 1 (pytrunc ((((max 1 (pytrunc ((t : ℚ) / r))).toNat : ℕ) : ℚ) /
          (1 / r)))).toNat : ℤ) ∧
      ((max 1 (pytrunc ((((max 1 (pytrunc ((t : ℚ) / r))).toNat : ℕ) : ℚ) /
          (1 / r)))).toNat : ℤ) ≤ (t : ℤ) := by
  have hrne : r ≠ 0 := ne_of_gt hr0
  set u : ℚ := (t : ℚ) / r with hudef
  have hu0 : (0 : ℚ) ≤ u := div_nonneg (by positivity) (le_of_lt hr0)
  have hfl1 : pytrunc u = ⌊u⌋ := pytrunc_floor _ hu0
  have htleu : (t : ℚ) ≤ u := by
    rw [hudef, le_div_iff₀ hr0]
    exact mul_le_of_le_one_right (by positivity) hr1
  have hfl1ge : (t : ℤ) ≤ ⌊u⌋ := Int.le_floor.mpr (by push_cast; exact htleu)
  have h1le : (1 : ℤ) ≤ ⌊u⌋ := le_trans (by exact_mod_cast ht) hfl1ge
  have hmax1 : max 1 (pytrunc u) = ⌊u⌋ := by
    rw [hfl1]
    exact max_eq_right h1le
  rw [hmax1]
  have htn0 : (⌊u⌋.toNat : ℤ) = ⌊u⌋ := Int.toNat_of_nonneg (by omega)
  have htn : ((⌊u⌋.toNat : ℕ) : ℚ) = ((⌊u⌋ : ℤ) : ℚ) := by exact_mod_cast htn0
  rw [htn]
  have hw : ((⌊u⌋ : ℤ) : ℚ) / (1/r) = ((⌊u⌋ : ℤ) : ℚ) * r := by
    rw [one_div, div_inv_eq_mul]
  rw [hw]
  set w : ℚ := ((⌊u⌋ : ℤ) : ℚ) * r with hwdef
  have hw0 : (0 : ℚ) ≤ w := by
    rw [hwdef]
    have h0fl : (0 : ℚ) ≤ ((⌊u⌋ : ℤ) : ℚ) := by
      exact_mod_cast le_trans zero_le_one h1le
    positivity
  have hfl2 : pytrunc w = ⌊w⌋ := pytrunc_floor _ hw0
  have hur : u * r = (t : ℚ) := div_mul_cancel₀ _ hrne
  have hwle : w ≤ (t : ℚ) := by
    rw [hwdef, ← hur]
    exact mul_le_mul_of_nonneg_right (Int.floor_le u) (le_of_lt hr0)
  have hfl2le : ⌊w⌋ ≤ (t : ℤ) := by
    have hmono := Int.floor_le_floor hwle
    rwa [Int.floor_natCast] at hmono
  have hwgt : (t : ℚ) - 1 < w := by
    have hfl : u - 1 < ⌊u⌋ := Int.sub_one_lt_floor u
    have hlt : (u - 1) * r < w := by
      rw [hwdef]
      exact mul_lt_mul_of_pos_right hfl hr0
    have hexp : (u - 1) * r = (t : ℚ) - r := by
      rw [sub_mul, hur, one_mul]
    rw [hexp] at hlt
    linarith
  have hfl2ge : (t : ℤ) - 1 ≤ ⌊w⌋ := by
    apply Int.le_floor.mpr
    push_cast
    linarith
  rw [hfl2]
  constructor
  · have hlo : (t : ℤ) - 1 ≤ max 1 ⌊w⌋ := le_trans hfl2ge (le_max_right _ _)
    omega
  · have hhi : max 1 ⌊w⌋ ≤ (t : ℤ) := max_le (by exact_mod_cast ht) hfl2le
    omega

theorem change_tempo_msg_roundtrip (m : Msg) (r : ℚ) (hr0 : 0 < r)
    (hr1 : r ≤ 1) (hk : m.kind = .set_tempo) (htm : 1 ≤ m.tempo) :
    (m.tempo : ℤ) - 1 ≤
        ((change_tempo_msg (1/r) (change_tempo_msg r m)).tempo : ℤ) ∧
      ((change_tempo_msg (1/r) (change_tempo_msg r m)).tempo : ℤ) ≤
        (m.tempo : ℤ) := by
  have hval : (change_tempo_msg (1/r) (change_tempo_msg r m)).tempo =
      (max 1 (pytrunc ((((max 1 (pytrunc ((m.tempo : ℚ) / r))).toNat : ℕ) : ℚ) /
        (1 / r)))).toNat := by
    simp [change_tempo_msg, hk]
  rw [hval]
  exact roundtrip_val_bounds m.tempo htm r hr0 hr1

theorem has_tempo_meta_map_change (midi : MidiFileM) (r : ℚ) :
    has_tempo_meta
        { midi with
          tracks := midi.tracks.map
            (fun t => { t with msgs := t.msgs.map (change_tempo_msg r) }) } =
      has_tempo_meta midi := by
  simp only [has_tempo_meta, List.any_map]
  congr 1
  funext tr
  simp only [Function.comp]
  rw [List.any_map]
  congr 1
  funext m
  simp [Function.comp, change_tempo_msg_kind]

/-- C5 (amended): for every ratio `0 < r ≤ 1` (which rules the
intermediate truncation error amplification out), applying ChangeTempo with
`r` and then with `1/r` to a file holding a tempo event gives tempo values
within 1 µs of the originals (for positive original tempi); for `r > 1` the
error can exceed 1 (see the counterexample). -/
theorem c5_change_tempo_roundtrip_amended (midi : MidiFileM) (r : ℚ)
    (f1 f2 : MidiFileM) (hr0 : 0 < r) (hr1 : r ≤ 1)
    (hT : has_tempo_meta midi = true)
    (h1 : change_tempo midi r = .ok f1) (h2 : change_tempo f1 (1/r) = .ok f2) :
    List.Forall₂ (fun tr tr' =>
      List.Forall₂ (fun m m' =>
        m.kind = .set_tempo → 1 ≤ m.tempo →
          (m.tempo : ℤ) - 1 ≤ (m'.tempo : ℤ) ∧ (m'.tempo : ℤ) ≤ (m.tempo : ℤ))
        tr.msgs tr'.msgs)
      midi.tracks f2.tracks := by
  rw [change_tempo, if_neg (not_le.mpr hr0)] at h1
  have hf1 : f1 = change_tempo_file midi r := (Except.ok.inj h1).symm
  have hr0' : (0 : ℚ) < 1/r := by positivity
  rw [change_tempo, if_neg (not_le.mpr hr0')] at h2
  have hf2 : f2 = change_tempo_file f1 (1/r) := (Except.ok.inj h2).symm
  rw [change_tempo_file, if_pos hT] at hf1
  have hT1 : has_tempo_meta f1 = true := by
    rw [hf1, has_tempo_meta_map_change]
    exact hT
  rw [change_tempo_file, if_pos hT1] at hf2
  rw [hf2, hf1]
  simp only [List.map_map]
  apply forall2_map_self
  intro tr _
  simp only [Function.comp]
  rw [List.map_map]
  apply forall2_map_self
  intro m _
  intro hk htm
  exact change_tempo_msg_roundtrip m r hr0 hr1 hk htm

/-- C5 (counterexample): with ratio 3 then 1/3, the tempo 500000 round-trips
to `max(1, int(max(1, int(500000/3)) / (1/3))) = 499998`, an error of 2 > 1
microseconds. -/
theorem c5_counterexample :
    change_tempo ex_c5_file 3 =
        .ok (⟨480, [⟨"", [tempoMsg 166666 0]⟩]⟩ : MidiFileM) ∧
      change_tempo (⟨480, [⟨"", [tempoMsg 166666 0]⟩]⟩ : MidiFileM) (1/3) =
        .ok (⟨480, [⟨"", [tempoMsg 499998 0]⟩]⟩ : MidiFileM) ∧
      ¬ ((500000 : ℤ) - 499998 ≤ 1) := by
  have e1 : pytrunc ((500000 : ℚ)/3) = 166666 :=
    pytrunc_eval _ 166666 (by norm_num) (by norm_num) (by norm_num)
  have e2 : pytrunc ((499998 : ℚ)) = 499998 :=
    pytrunc_eval _ 499998 (by norm_num) (by norm_num) (by norm_num)
  refine ⟨?_, ?_, by norm_num⟩
  · norm_num +decide [change_tempo, change_tempo_file, has_tempo_meta,
      change_tempo_msg, tempoMsg, ex_c5_file, e1]
  · norm_num +decide [change_tempo, change_tempo_file, has_tempo_meta,
      change_tempo_msg, tempoMsg, e2]

/-- C5 (witness): the amended round-trip law instantiated at ratio 1 on
`ex_c5_file`. -/
theorem c5_witness :
    (0 : ℚ) < 1 ∧ (1 : ℚ) ≤ 1 ∧ has_tempo_meta ex_c5_file = true ∧
      change_tempo ex_c5_file 1 = .ok ex_c5_file ∧
      change_tempo ex_c5_file (1/1) = .ok ex_c5_file ∧
      List.Forall₂ (fun tr tr' =>
        List.Forall₂ (fun m m' =>
          m.kind = .set_tempo → 1 ≤ m.tempo →
            (m.tempo : ℤ) - 1 ≤ (m'.tempo : ℤ) ∧
              (m'.tempo : ℤ) ≤ (m.tempo : ℤ))
          tr.msgs tr'.msgs)
        ex_c5_file.tracks ex_c5_file.tracks := by
  have e0 : pytrunc ((500000 : ℚ)) = 500000 :=
    pytrunc_eval _ 500000 (by norm_num) (by norm_num) (by norm_num)
  have h1 : change_tempo ex_c5_file 1 = .ok ex_c5_file := by
    norm_num +decide [change_tempo, change_tempo_file, has_tempo_meta,
      change_tempo_msg, tempoMsg, ex_c5_file, e0]
  have h2 : change_tempo ex_c5_file (1/1) = .ok ex_c5_file := by
    norm_num +decide [change_tempo, change_tempo_file, has_tempo_meta,
      change_tempo_msg, tempoMsg, ex_c5_file, e0]
  exact ⟨by norm_num, le_rfl, by decide, h1, h2,
    c5_change_tempo_roundtrip_amended ex_c5_file 1 ex_c5_file ex_c5_file
      (by norm_num) le_rfl (by decide) h1 h2⟩

theorem build_index_aux_ok (items : List (String × MidiFileM))
    (hok : ∀ pm ∈ items, (extract_melody_track pm.2).isOk = true) :
    ∀ entries n_ok n_failed,
      build_index_aux (items.map (fun pm => (pm.1, Except.ok pm.2)))
          entries n_ok n_failed =
        .ok (entries ++ index_entries items, n_ok + count_ok items,
          n_failed + count_failed items) := by
  induction items with
  | nil =>
    intro entries a b
    simp [build_index_aux, index_entries, count_ok, count_failed]
  | cons pm rest ih =>
    intro entries a b
    have hpm := hok pm (by simp)
    cases he : extract_melody_track pm.2 with
    | error e =>
      rw [he] at hpm
      exact absurd hpm (by simp [Except.isOk, Except.toBool])
    | ok s =>
      have hrest : ∀ q ∈ rest, (extract_melody_track q.2).isOk = true :=
        fun q hq => hok q (by simp [hq])
      simp only [List.map_cons, build_index_aux, he]
      by_cases hemp : s.isEmpty
      · have hemp' : s = [] := List.isEmpty_iff.mp hemp
        rw [if_pos hemp]
        rw [ih hrest entries a (b + 1)]
        have hent : index_entries (pm :: rest) = index_entries rest := by
          simp [index_entries, he, hemp']
        have hok2 : count_ok (pm :: rest) = count_ok rest := by
          simp [count_ok, he, hemp']
        have hfail : count_failed (pm :: rest) = count_failed rest + 1 := by
          simp [count_failed, he, hemp']
        simp only [hent, hok2, hfail, Except.ok.injEq, Prod.mk.injEq]
        refine ⟨trivial, trivial, by omega⟩
      · have hemp' : ¬ s = [] := fun hcon => hemp (by simp [hcon])
        rw [if_neg hemp]
        rw [ih hrest]
        have hent : index_entries (pm :: rest) =
            ⟨pm.1, s⟩ :: index_entries rest := by
          simp [index_entries, he, hemp']
        have hok2 : count_ok (pm :: rest) = count_ok rest + 1 := by
          simp [count_ok, he, hemp']
        have hfail : count_failed (pm :: rest) = count_failed rest := by
          simp [count_failed, he, hemp']
        simp only [hent, hok2, hfail, List.append_assoc,
          List.singleton_append, Except.ok.injEq, Prod.mk.injEq]
        refine ⟨trivial, by omega, trivial⟩

theorem build_index_aux_err (items : List (String × MidiFileM))
    (hok : ∀ pm ∈ items, (extract_melody_track pm.2).isOk = true)
    (p e : String) (rest : List (String × Except String MidiFileM)) :
    ∀ entries n_ok n_failed,
      build_index_aux
          (items.map (fun pm => (pm.1, Except.ok pm.2)) ++ (p, .error e) :: rest)
          entries n_ok n_failed =
        .error e := by
  induction items with
  | nil =>
    intro entries a b
    simp [build_index_aux]
  | cons pm rest' ih =>
    intro entries a b
    have hpm := hok pm (by simp)
    cases he : extract_melody_track pm.2 with
    | error e' =>
      rw [he] at hpm
      exact absurd hpm (by simp [Except.isOk, Except.toBool])
    | ok s =>
      have hrest : ∀ q ∈ rest', (extract_melody_track q.2).isOk = true :=
        fun q hq => hok q (by simp [hq])
      simp only [List.map_cons, List.cons_append, build_index_aux, he]
      by_cases hemp : s.isEmpty
      · rw [if_pos hemp]
        exact ih hrest entries a (b + 1)
      · rw [if_neg hemp]
        exact ih hrest (entries ++ [⟨pm.1, s⟩]) (a + 1) b

/-- C3 (amended): over parse-successful files whose melody extraction
succeeds, `build_index` returns exactly one IndexEntry per file with a
non-empty melody (in dataset order) and counts empty-melody files as
skipped without aborting; but a file that fails to PARSE is not caught:
`mido.MidiFile(midi_path)` on index_db.py line 31 sits outside any handler,
so the parse error propagates immediately and aborts the whole batch. -/
theorem c3_build_index_amended :
    (∀ items : List (String × MidiFileM),
      (∀ pm ∈ items, (extract_melody_track pm.2).isOk = true) →
        build_index (items.map (fun pm => (pm.1, Except.ok pm.2))) =
          .ok (index_entries items, count_ok items, count_failed items)) ∧
    (∀ (items : List (String × MidiFileM)) (p e : String)
        (rest : List (String × Except String MidiFileM)),
      (∀ pm ∈ items, (extract_melody_track pm.2).isOk = true) →
        build_index (items.map (fun pm => (pm.1, Except.ok pm.2)) ++
            (p, .error e) :: rest) =
          .error e) := by
  constructor
  · intro items h
    rw [build_index, build_index_aux_ok items h]
    simp
  · intro items p e rest h
    rw [build_index, build_index_aux_err items h]

/-- C3 (counterexample): on a dataset of 3 files whose middle file is
corrupt (its parse raises) and whose other two files each carry a 4-note
melody, `build_index` raises the parse error past the batch boundary instead
of returning an Index with 2 entries and 1 skipped. -/
theorem c3_counterexample :
    build_index
        [("a", .ok ex_c3_good), ("b", .error "corrupt"),
          ("c", .ok ex_c3_good)] =
      .error "corrupt" ∧
      extract_melody_track ex_c3_good = .ok [60, 62, 64, 65] := by
  have hg : extract_melody_track ex_c3_good = .ok [60, 62, 64, 65] := by
    norm_num +decide [extract_melody_track, is_melody_name, is_lead_name,
      lower_name, pyLower, pyLowerChar, hasSubstr, startsWithB, try_tracks,
      strong_candidates, sort_desc_by_len, insert_desc,
      extract_pitch_sequence, extract_aux, tick2second, ex_c3_good, ex_mono4,
      onMsg, offMsg]
  refine ⟨?_, hg⟩
  simp [build_index, build_index_aux, hg]

/-- C3 (witness): the amended statement instantiated on a two-file dataset
whose first file yields a melody and whose second file yields none. -/
theorem c3_witness :
    (∀ pm ∈ [("a", ex_c3_good), ("b", ex_c3_empty)],
      (extract_melody_track pm.2).isOk = true) ∧
      build_index ([("a", ex_c3_good), ("b", ex_c3_empty)].map
          (fun pm => (pm.1, Except.ok pm.2))) =
        .ok (index_entries [("a", ex_c3_good), ("b", ex_c3_empty)],
          count_ok [("a", ex_c3_good), ("b", ex_c3_empty)],
          count_failed [("a", ex_c3_good), ("b", ex_c3_empty)]) := by
  have hg : extract_melody_track ex_c3_good = .ok [60, 62, 64, 65] := by
    norm_num +decide [extract_melody_track, is_melody_name, is_lead_name,
      lower_name, pyLower, pyLowerChar, hasSubstr, startsWithB, try_tracks,
      strong_candidates, sort_desc_by_len, insert_desc,
      extract_pitch_sequence, extract_aux, tick2second, ex_c3_good, ex_mono4,
      onMsg, offMsg]
  have he : extract_melody_track ex_c3_empty = .ok [] := rfl
  have hyp : ∀ pm ∈ [("a", ex_c3_good), ("b", ex_c3_empty)],
      (extract_melody_track pm.2).isOk = true := by
    intro pm hpm
    rcases List.mem_cons.mp hpm with rfl | hpm'
    · rw [hg]
      rfl
    · rcases List.mem_singleton.mp hpm' with rfl
      rw [he]
      rfl
  exact ⟨hyp, c3_build_index_amended.1 _ hyp⟩

end MidiTool
